import Mathlib

/-!
Shallow embedding of the `psobczak/sudoku` repository (Rust).

The repository holds two partially duplicated drafts of the same 9×9 board
logic: `src/board.rs` (module `B` below) and `src/main.rs` (module `M` below),
plus an empty solver stub in `src/solver.rs` (module `Solver` below, modelled
from the specification).

Modelling conventions:
* Rust strings are handled by the code through `value.as_bytes()`, so an input
  string is embedded as its list of UTF-8 bytes, `Str := List Nat`.  For the
  ASCII inputs all the claims are about, one byte is one character.
* `u8` and `usize` values are embedded as `Nat`; no arithmetic in the sources
  can overflow (all values involved stay below 256).
* A fixed-size Rust array `[[Cell; 9]; 9]` is embedded as the function type
  `Fin 9 → Fin 9 → Cell`.
* Fallible Rust code returning `Result` is embedded with an explicit result
  type `PResult` that also has a `panic` constructor, because several paths in
  the source `unwrap()` a `Result`/`Option` and can abort instead of returning
  an error.
-/

namespace Sudoku

/-- A string, as the list of its UTF-8 bytes (the code works on `as_bytes()`). -/
abbrev Str := List Nat

/-- `char::to_digit(10)` applied to an ASCII byte: digits `'0'..='9'` are the
bytes 48–57. -/
def toDigit (b : Nat) : Option Nat :=
  if 48 ≤ b ∧ b ≤ 57 then some (b - 48) else none

/-- The `Cell` enum, identical in `board.rs` and `main.rs`: empty, or a `u8`
digit payload. -/
inductive Cell where
  | empty : Cell
  | value : Nat → Cell
deriving DecidableEq, Repr

/-- The digit stored in a cell, if any (used to model the presence sets and
the candidate computation). -/
def Cell.val? : Cell → Option Nat
  | .empty => none
  | .value v => some v

/-- The 9×9 board storage `[[Cell; 9]; 9]`, row-major: first index row,
second index column. -/
abbrev Board := Fin 9 → Fin 9 → Cell

/-- Writing one cell of the storage (the effect of `*c = …` through
`get_mut`), as a functional update. -/
def update (g : Board) (i j : Fin 9) (c : Cell) : Board :=
  fun a b => if a = i ∧ b = j then c else g a b

/-- The all-empty board (`Default for Board` / `Default for Sudoku`). -/
def emptyBoard : Board := fun _ _ => Cell.empty

/-- Outcome of running a fallible piece of Rust code: normal return, an `Err`
of the module's error enum, or a panic (`unwrap` on `None`/`Err`, `todo!()`). -/
inductive PResult (ε α : Type) where
  | panic : PResult ε α
  | error : ε → PResult ε α
  | ok : α → PResult ε α
deriving DecidableEq, Repr

/-! ## The `board.rs` draft -/

namespace B

/-- `SudokuError` of `board.rs`: `Value(u8)` and `InputLength(usize)`. -/
inductive SudokuError where
  | value : Nat → SudokuError
  | inputLength : Nat → SudokuError
deriving DecidableEq, Repr

/-- The `Row` enum of `board.rs`. -/
inductive Row where
  | A | B | C | D | E | F | G | H | I
deriving DecidableEq, Repr

/-- The `Column` enum of `board.rs`. -/
inductive Column where
  | one | two | three | four | five | six | seven | eight | nine
deriving DecidableEq, Repr

/-- `impl From<Row> for usize`. -/
def rowIdx : Row → Nat
  | .A => 0 | .B => 1 | .C => 2 | .D => 3 | .E => 4
  | .F => 5 | .G => 6 | .H => 7 | .I => 8

/-- `impl From<Column> for usize`. -/
def colIdx : Column → Nat
  | .one => 0 | .two => 1 | .three => 2 | .four => 3 | .five => 4
  | .six => 5 | .seven => 6 | .eight => 7 | .nine => 8

/-- The row index as a `Fin 9` (every `Row` converts to an index below 9). -/
def rowFin (r : Row) : Fin 9 := ⟨rowIdx r, by cases r <;> decide⟩

/-- The column index as a `Fin 9`. -/
def colFin (c : Column) : Fin 9 := ⟨colIdx c, by cases c <;> decide⟩

/-- The success path of `impl TryFrom<usize> for Row` on an in-range index
(`try_into().unwrap()` as used by `all_rows_completed`). -/
def rowOfFin (i : Fin 9) : Row :=
  match i.val with
  | 0 => .A | 1 => .B | 2 => .C | 3 => .D | 4 => .E
  | 5 => .F | 6 => .G | 7 => .H | _ => .I

/-- The success path of `impl TryFrom<usize> for Column` on an in-range index. -/
def colOfFin (i : Fin 9) : Column :=
  match i.val with
  | 0 => .one | 1 => .two | 2 => .three | 3 => .four | 4 => .five
  | 5 => .six | 6 => .seven | 7 => .eight | _ => .nine

/-- `impl TryFrom<u8> for Cell` in `board.rs`: `0 ↦ Empty`, `1..=9 ↦ Value`,
anything else is `Err(SudokuError::Value(v))`. -/
def Cell.tryFrom (v : Nat) : Except SudokuError Cell :=
  if v = 0 then .ok .empty
  else if 1 ≤ v ∧ v ≤ 9 then .ok (.value v)
  else .error (.value v)

/-- `Board::set_cell`.  `get_cell_mut` looks the cell up with the `usize`
images of the `Row`/`Column` coordinates; if the lookup succeeds, the code
runs `Cell::try_from(number).unwrap()` (a panic when `number` is out of
range) and stores the cell, otherwise `ok_or_else` yields
`SudokuError::Value(number)`. -/
def set_cell (g : Board) (p : Row × Column) (number : Nat) :
    PResult SudokuError Board :=
  if h : rowIdx p.1 < 9 ∧ colIdx p.2 < 9 then
    match Cell.tryFrom number with
    | .ok c => .ok (update g ⟨rowIdx p.1, h.1⟩ ⟨colIdx p.2, h.2⟩ c)
    | .error _ => .panic
  else .error (.value number)

/-- `Board::get_row`: the 9 cells of a row in column order. -/
def get_row (g : Board) (r : Row) : List Cell :=
  (List.finRange 9).map (fun j => g (rowFin r) j)

/-- `Board::get_column`: the 9 cells of a column in row order. -/
def get_column (g : Board) (c : Column) : List Cell :=
  (List.finRange 9).map (fun i => g i (colFin c))

/-- The `HashSet`-based loop shared by `is_row_completed` and
`is_column_completed`: walk the cells keeping the set of digits seen so far,
failing on the first `Empty` cell or on the first digit whose `insert`
returns `false` (a repeat). -/
def unitSeen : List Cell → List Nat → Bool
  | [], _ => true
  | .empty :: _, _ => false
  | .value n :: rest, seen => if n ∈ seen then false else unitSeen rest (n :: seen)

/-- `Board::is_row_completed`. -/
def is_row_completed (g : Board) (r : Row) : Bool :=
  unitSeen (get_row g r) []

/-- `Board::is_column_completed`. -/
def is_column_completed (g : Board) (c : Column) : Bool :=
  unitSeen (get_column g c) []

/-- `Board::all_rows_completed`: `(0..9)` converted through
`TryFrom<usize> for Row` and checked one by one. -/
def all_rows_completed (g : Board) : Bool :=
  (List.finRange 9).all (fun i => is_row_completed g (rowOfFin i))

/-- `Board::all_columns_completed`. -/
def all_columns_completed (g : Board) : Bool :=
  (List.finRange 9).all (fun i => is_column_completed g (colOfFin i))

/-- One input byte through the cell-parsing pipeline of
`TryFrom<&str> for Board`: `c.to_digit(10).unwrap()` then
`Cell::try_from(d).unwrap()`; `none` models a panic of either `unwrap`. -/
def parseCell (byte : Nat) : Option Cell :=
  match toDigit byte with
  | none => none
  | some d =>
    match Cell.tryFrom d with
    | .ok c => some c
    | .error _ => none

/-- `impl TryFrom<&str> for Board`: reject any byte length other than 81 with
`InputLength`, then fill the 9 rows from the chunks of 9 bytes, so cell
`(i, j)` comes from byte `9 * i + j`; a non-digit byte panics the conversion
(`to_digit(10).unwrap()`). -/
def tryFromStr (s : Str) : PResult SudokuError Board :=
  if s.length ≠ 81 then .error (.inputLength s.length)
  else if s.all (fun byte => (parseCell byte).isSome) then
    .ok (fun i j => (parseCell (s.getD (9 * i.val + j.val) 0)).getD .empty)
  else .panic

/-- The 9 coordinates of the 3×3 box containing `(r, c)`, in row-major
order: rows `(r/3)*3 .. (r/3)*3+2`, columns `(c/3)*3 .. (c/3)*3+2`. -/
def boxCoordsOf (r c : Fin 9) : List (Fin 9 × Fin 9) :=
  ((List.finRange 3).map (fun a =>
    (List.finRange 3).map (fun b =>
      ((⟨r.val / 3 * 3 + a.val, by have := r.isLt; have := a.isLt; omega⟩ : Fin 9),
       (⟨c.val / 3 * 3 + b.val, by have := c.isLt; have := b.isLt; omega⟩ : Fin 9))))).flatten

/-- Modelled from the spec: `Board::get_square_of` in `board.rs` is an
unimplemented `todo!()` stub; the spec settles its meaning as the 9 cells of
the 3×3 box containing the coordinate — the box with index `(r/3)*3 + c/3` —
in a fixed row-major order. -/
def get_square_of (g : Board) (p : Row × Column) : List Cell :=
  (boxCoordsOf (rowFin p.1) (colFin p.2)).map (fun q => g q.1 q.2)

/-- The decimal rendering of a cell value by `write!(f, "{}", val)`, as
bytes.  For the digits 1–9 this is the single byte `48 + val`. -/
def natDecimal (v : Nat) : Str :=
  (Nat.toDigits 10 v).map Char.toNat

/-- One cell as printed by `impl Display for Board`: `'_'` (byte 95) for
`Empty`, else the decimal digits of the value. -/
def renderCell : Cell → Str
  | .empty => [95]
  | .value v => natDecimal v

/-- `impl Display for Board`: each row is its 9 rendered cells followed by a
newline (`writeln!`, byte 10). -/
def displayStr (g : Board) : Str :=
  ((List.finRange 9).map (fun i =>
    ((List.finRange 9).map (fun j => renderCell (g i j))).flatten ++ [10])).flatten

end B

/-! ## The `main.rs` draft -/

namespace M

/-- `SudokuError` of `main.rs`: `CellNotFound { row, col }`, `CellValue(u8)`
and `InputLength(usize)`.  `CellNotFound` is declared but never constructed
anywhere in `main.rs`. -/
inductive SudokuError where
  | cellNotFound : Nat → Nat → SudokuError
  | cellValue : Nat → SudokuError
  | inputLength : Nat → SudokuError
deriving DecidableEq, Repr

/-- `impl TryFrom<u8> for Cell` in `main.rs`: only `1..=9` succeed; `0` is
an error here, unlike the `board.rs` version. -/
def Cell.tryFrom (v : Nat) : Except SudokuError Cell :=
  if 1 ≤ v ∧ v ≤ 9 then .ok (.value v) else .error (.cellValue v)

/-- `Sudoku::set_cell` in `main.rs`: `get_cell_mut(row, col)` is `None` for an
out-of-range coordinate, turning into `Err(SudokuError::CellValue(number))`
through `ok_or_else`; on an in-range coordinate the code runs
`Cell::try_from(number).unwrap()`, which panics for `number = 0` or
`number > 9`. -/
def set_cell (g : Board) (row col : Nat) (number : Nat) :
    PResult SudokuError Board :=
  if h : row < 9 ∧ col < 9 then
    match Cell.tryFrom number with
    | .ok c => .ok (update g ⟨row, h.1⟩ ⟨col, h.2⟩ c)
    | .error _ => .panic
  else .error (.cellValue number)

/-- One input byte through the cell pipeline of `TryFrom<&str> for Sudoku`;
note that byte 48 (`'0'`) panics here, because `main.rs`'s `Cell::try_from`
rejects 0 and the result is `unwrap`ped. -/
def parseCell (byte : Nat) : Option Cell :=
  match toDigit byte with
  | none => none
  | some d =>
    match Cell.tryFrom d with
    | .ok c => some c
    | .error _ => none

/-- `impl TryFrom<&str> for Sudoku` in `main.rs`; same shape as the
`board.rs` conversion but with `main.rs`'s cell conversion. -/
def tryFromStr (s : Str) : PResult SudokuError Board :=
  if s.length ≠ 81 then .error (.inputLength s.length)
  else if s.all (fun byte => (parseCell byte).isSome) then
    .ok (fun i j => (parseCell (s.getD (9 * i.val + j.val) 0)).getD .empty)
  else .panic

end M

/-! ## The solver, modelled from the specification

`src/solver.rs` only declares `pub struct Sudoku<'a> { sudoku: &'a Board }`
with a constructor and no algorithm at all, so everything below the coordinate
lists is modelled from the specification's words rather than translated from
source code. -/

namespace Solver

/-- All 81 coordinates in row-major order. -/
def allCoords : List (Fin 9 × Fin 9) :=
  ((List.finRange 9).map (fun i => (List.finRange 9).map (fun j => (i, j)))).flatten

/-- The row unit through row `i`: its 9 coordinates in column order. -/
def unitRow (i : Fin 9) : List (Fin 9 × Fin 9) :=
  (List.finRange 9).map (fun j => (i, j))

/-- The column unit through column `j`: its 9 coordinates in row order. -/
def unitCol (j : Fin 9) : List (Fin 9 × Fin 9) :=
  (List.finRange 9).map (fun i => (i, j))

/-- Box index of a coordinate, `(r/3)*3 + c/3`. -/
def boxIdx (p : Fin 9 × Fin 9) : Nat :=
  p.1.val / 3 * 3 + p.2.val / 3

/-- The box unit with index `k`: its coordinates in row-major order. -/
def unitBox (k : Nat) : List (Fin 9 × Fin 9) :=
  allCoords.filter (fun p => boxIdx p = k)

/-- The 27 units: 9 rows, 9 columns, 9 boxes. -/
def allUnits : List (List (Fin 9 × Fin 9)) :=
  (List.finRange 9).map unitRow ++ (List.finRange 9).map unitCol ++
    (List.finRange 9).map (fun k => unitBox k.val)

/-- The digits of the filled cells of a unit, in unit order (the presence
set underlying validity and candidate computation). -/
def unitVals (g : Board) (u : List (Fin 9 × Fin 9)) : List Nat :=
  u.filterMap (fun p => (g p.1 p.2).val?)

/-- Modelled from the spec: `initialize(grid)` fails with `Contradiction`
when some filled cell already conflicts with a peer, i.e. when some unit
holds a repeated digit.  This check accepts exactly the grids with no
repeated filled digit in any unit. -/
def validInit (g : Board) : Bool :=
  allUnits.all (fun u => decide (unitVals g u).Nodup)

/-- Modelled from the spec: the candidate set of a cell is `{1..9}` minus the
digits already placed in the cell's row, column and box, listed in ascending
numeric order (the branching order of the solver). -/
def candidates (g : Board) (p : Fin 9 × Fin 9) : List Nat :=
  ((List.range 9).map (· + 1)).filter (fun d =>
    decide (d ∉ unitVals g (unitRow p.1)) &&
    decide (d ∉ unitVals g (unitCol p.2)) &&
    decide (d ∉ unitVals g (unitBox (boxIdx p))))

/-- The empty coordinates of a grid, in row-major order. -/
def empties (g : Board) : List (Fin 9 × Fin 9) :=
  allCoords.filter (fun p => decide (g p.1 p.2 = Cell.empty))

/-- Number of empty cells; the solver's recursion is bounded by it. -/
def emptyCount (g : Board) : Nat := (empties g).length

/-- Modelled from the spec: cell selection picks the empty cell with the
smallest candidate set, ties broken by lowest row then column index
(`argmin` over the row-major list of empties keeps the earliest minimum).
`none` means no empty cell remains. -/
def selectCell (g : Board) : Option (Fin 9 × Fin 9) :=
  (empties g).argmin (fun p => (candidates g p).length)

/-- Modelled from the spec: depth-first backtracking search.  If no empty
cell remains the grid is solved; otherwise the selected cell's candidates
are tried in ascending order, recursing on the updated grid, and the first
success is returned (`findSome?`); an empty candidate list is a
contradiction of the current branch and backtracks.  A cell whose candidate
set has size 1 (a naked single) is selected first by the minimality of
`selectCell`, so the spec's propagation phase is subsumed by the search
order.  The fuel argument only drives the structural recursion: each
recursive call fills one empty cell, so `emptyCount g + 1` fuel is never
exhausted. -/
def solveFuel : Nat → Board → Option Board
  | 0, _ => none
  | fuel + 1, g =>
    match selectCell g with
    | none => some g
    | some p => (candidates g p).findSome? (fun d =>
        solveFuel fuel (update g p.1 p.2 (.value d)))

/-- Modelled from the spec: the whole solve session.  `initialize` rejects a
contradictory starting grid; otherwise the search runs to completion.
`some` is the `Solved` terminal state, `none` covers `Contradiction` at
initialization and `Unsolvable`. -/
def solve (g : Board) : Option Board :=
  if validInit g then solveFuel (emptyCount g + 1) g else none

/-- The validity invariant maintained by the search, as a proposition: no
unit holds a repeated filled digit (this is what `validInit` decides). -/
def ValidG (g : Board) : Prop :=
  ∀ u ∈ allUnits, (unitVals g u).Nodup

/-- Completion check of one box through the seen-set loop of `board.rs`
(this is what `is_unit_complete` does on the box unit). -/
def boxCompleted (g : Board) (k : Fin 9) : Bool :=
  B.unitSeen ((unitBox k.val).map (fun p => g p.1 p.2)) []

/-- All 27 units complete: the `board.rs` row and column checks plus the box
check. -/
def allUnitsCompleted (g : Board) : Bool :=
  B.all_rows_completed g && B.all_columns_completed g &&
    (List.finRange 9).all (boxCompleted g)

end Solver

/-! ## Concrete inputs used by counterexamples and witnesses -/

/-- Builds the byte string of a row-major digit list (digit `d` is byte
`48 + d`). -/
def ofDigits (l : List Nat) : Str := l.map (· + 48)

/-- The 81-character solved-grid input used by the repository's own tests:
`"123456789578139624496872153952381467641297835387564291719623548864915372235748916"`. -/
def solvedInput : Str := ofDigits
  [1,2,3,4,5,6,7,8,9,
   5,7,8,1,3,9,6,2,4,
   4,9,6,8,7,2,1,5,3,
   9,5,2,3,8,1,4,6,7,
   6,4,1,2,9,7,8,3,5,
   3,8,7,5,6,4,2,9,1,
   7,1,9,6,2,3,5,4,8,
   8,6,4,9,1,5,3,7,2,
   2,3,5,7,4,8,9,1,6]

/-- The grid that parsing `solvedInput` produces. -/
def solvedBoard : Board :=
  fun i j => (B.parseCell (solvedInput.getD (9 * i.val + j.val) 0)).getD .empty

/-- The spec's known-solvable puzzle input
`"003020600900305001001806400008102900700000008006708200002609500800203009005010300"`. -/
def puzzleInput : Str := ofDigits
  [0,0,3,0,2,0,6,0,0,
   9,0,0,3,0,5,0,0,1,
   0,0,1,8,0,6,4,0,0,
   0,0,8,1,0,2,9,0,0,
   7,0,0,0,0,0,0,0,8,
   0,0,6,7,0,8,2,0,0,
   0,0,2,6,0,9,5,0,0,
   8,0,0,2,0,3,0,0,9,
   0,0,5,0,1,0,3,0,0]

/-- An 81-byte input consisting entirely of the non-digit character `'a'`. -/
def allLettersInput : Str := List.replicate 81 97

/-- An input of length 80 (all `'0'`). -/
def shortInput : Str := List.replicate 80 48

/-- The board obtained from the empty board by writing digit 5 at the top
left cell (the result of a successful `set_cell`). -/
def b5 : Board := update emptyBoard 0 0 (Cell.value 5)

/-! ## Helper lemmas -/

/-- Updating one cell leaves every other cell untouched. -/
theorem update_ne (g : Board) (i j : Fin 9) (c : Cell) {a b : Fin 9}
    (h : (a, b) ≠ (i, j)) : update g i j c a b = g a b := by
  unfold update
  rw [if_neg]
  rintro ⟨h1, h2⟩
  exact h (by rw [h1, h2])

/-- Updating one cell writes the given value there. -/
theorem update_self (g : Board) (i j : Fin 9) (c : Cell) :
    update g i j c i j = c := by
  simp [update]

/-- Every `Row` maps to an index below 9. -/
theorem rowIdx_lt (r : B.Row) : B.rowIdx r < 9 := (B.rowFin r).isLt

/-- Every `Column` maps to an index below 9. -/
theorem colIdx_lt (c : B.Column) : B.colIdx c < 9 := (B.colFin c).isLt

/-- Round trip of the row index through `TryFrom<usize>`/`From<Row>`. -/
theorem rowFin_rowOfFin : ∀ i : Fin 9, B.rowFin (B.rowOfFin i) = i := by decide

/-- Round trip of the column index. -/
theorem colFin_colOfFin : ∀ i : Fin 9, B.colFin (B.colOfFin i) = i := by decide

/-! ## C3 — wrong input length -/

/-- C3: for every input whose byte length is not exactly 81, both string
conversions fail with `InputLength` carrying the actual length, and no grid
is returned. -/
theorem parse_wrong_length_inputLength (s : Str) (h : s.length ≠ 81) :
    B.tryFromStr s = .error (.inputLength s.length) ∧
      M.tryFromStr s = .error (.inputLength s.length) := by
  constructor
  · unfold B.tryFromStr
    rw [if_pos h]
  · unfold M.tryFromStr
    rw [if_pos h]

/-- C3 witness: the length-80 input yields `InputLength` citing 80. -/
theorem parse_wrong_length_inputLength_witness :
    B.tryFromStr shortInput = .error (.inputLength 80) ∧
      M.tryFromStr shortInput = .error (.inputLength 80) :=
  parse_wrong_length_inputLength shortInput (by decide)

/-! ## C4 — non-digit characters -/

/-- C4 (divergence witness): on an 81-character input made of the non-digit
character `'a'`, both string conversions panic (`c.to_digit(10).unwrap()` on
`None`) instead of returning an `InvalidDigit`-style error to the caller. -/
theorem parse_nondigit_panics :
    B.tryFromStr allLettersInput = .panic ∧
      M.tryFromStr allLettersInput = .panic := by decide

/-! ## C6 — set_cell error contract -/

/-- C6 (divergence witness): `Board::set_cell` panics on the out-of-range
digit 10 instead of returning an error; `main.rs`'s `Sudoku::set_cell`
answers an out-of-range coordinate with `CellValue(number)` instead of an
out-of-range error (the `CellNotFound` variant is never constructed), and
panics on digit 0 instead of emptying the cell. -/
theorem set_cell_error_divergences :
    B.set_cell emptyBoard (.A, .one) 10 = .panic ∧
      M.set_cell emptyBoard 9 0 5 = .error (.cellValue 5) ∧
      M.set_cell emptyBoard 0 0 0 = .panic := by decide

/-! ## C10 — the board module's set_cell never returns an error -/

/-- C10: in the `board.rs` module, for every board, every `(Row, Column)`
coordinate pair and every digit in `[0, 9]`, `set_cell` returns `Ok`: the
`Row`/`Column` enums only denote indices in `[0, 9)`, so the mutable cell
lookup never fails and the `ok_or_else` error branch is unreachable. -/
theorem set_cell_board_always_ok (g : Board) (r : B.Row) (c : B.Column)
    (n : Nat) (h : n ≤ 9) : ∃ g2, B.set_cell g (r, c) n = .ok g2 := by
  unfold B.set_cell
  rw [dif_pos ⟨rowIdx_lt r, colIdx_lt c⟩]
  unfold B.Cell.tryFrom
  by_cases h0 : n = 0
  · rw [if_pos h0]
    exact ⟨_, rfl⟩
  · rw [if_neg h0, if_pos ⟨by omega, h⟩]
    exact ⟨_, rfl⟩

/-- C10 witness: writing digit 0 at `(Row::A, Column::One)` succeeds. -/
theorem set_cell_board_always_ok_witness :
    ∃ g2, B.set_cell emptyBoard (.A, .one) 0 = .ok g2 :=
  set_cell_board_always_ok emptyBoard .A .one 0 (by decide)

/-! ## C9 — set_cell frame property -/

/-- C9: a successful `set_cell` changes at most the addressed cell; every
other cell of the grid keeps its previous content, in both the `board.rs`
and the `main.rs` draft. -/
theorem set_cell_frame :
    (∀ (g : Board) (r : B.Row) (c : B.Column) (n : Nat) (g2 : Board),
      B.set_cell g (r, c) n = .ok g2 →
      ∀ i j : Fin 9, ¬(i.val = B.rowIdx r ∧ j.val = B.colIdx c) →
        g2 i j = g i j) ∧
    (∀ (g : Board) (row col n : Nat) (g2 : Board),
      M.set_cell g row col n = .ok g2 →
      ∀ i j : Fin 9, ¬(i.val = row ∧ j.val = col) → g2 i j = g i j) := by
  constructor
  · intro g r c n g2 h i j hne
    unfold B.set_cell at h
    rw [dif_pos ⟨rowIdx_lt r, colIdx_lt c⟩] at h
    cases htf : B.Cell.tryFrom n with
    | ok cell =>
      rw [htf] at h
      injection h with h
      subst h
      apply update_ne
      intro hpair
      apply hne
      have h1 := congrArg Prod.fst hpair
      have h2 := congrArg Prod.snd hpair
      exact ⟨congrArg Fin.val h1, congrArg Fin.val h2⟩
    | error e =>
      rw [htf] at h
      cases h
  · intro g row col n g2 h i j hne
    unfold M.set_cell at h
    by_cases hrange : row < 9 ∧ col < 9
    · rw [dif_pos hrange] at h
      cases htf : M.Cell.tryFrom n with
      | ok cell =>
        rw [htf] at h
        injection h with h
        subst h
        apply update_ne
        intro hpair
        apply hne
        have h1 := congrArg Prod.fst hpair
        have h2 := congrArg Prod.snd hpair
        exact ⟨congrArg Fin.val h1, congrArg Fin.val h2⟩
      | error e =>
        rw [htf] at h
        cases h
    · rw [dif_neg hrange] at h
      cases h

/-- C9 witness: after writing 5 at the top-left cell of the empty board,
other cells still read empty, through either draft's `set_cell`. -/
theorem set_cell_frame_witness :
    b5 1 1 = emptyBoard 1 1 ∧ b5 2 0 = emptyBoard 2 0 :=
  ⟨set_cell_frame.1 emptyBoard .A .one 5 b5 (by decide) 1 1 (by decide),
   set_cell_frame.2 emptyBoard 0 0 5 b5 (by decide) 2 0 (by decide)⟩

/-! ## C5 — parsing a digit string fills the grid row-major -/

/-- C5 (divergence): every 81-character string of the digits `'0'`–`'9'`
parses successfully through the `board.rs` conversion, and the grid is
filled in row-major order: cell `(i, j)` is `Empty` when the character at
index `9*i + j` is `'0'` (byte 48), and otherwise holds that character's
digit value.  The `main.rs` draft, however, panics on every such input that
contains a `'0'`: its `Cell::try_from` rejects 0 and the parse pipeline
`unwrap()`s the result, so the claimed behaviour holds in `board.rs` but
not in `main.rs`. -/
theorem parse_digits_row_major (s : Str) (hlen : s.length = 81)
    (hdig : ∀ byte ∈ s, 48 ≤ byte ∧ byte ≤ 57) :
    (∃ g, B.tryFromStr s = .ok g ∧ ∀ i j : Fin 9,
      g i j = if s.getD (9 * i.val + j.val) 0 = 48 then Cell.empty
              else Cell.value (s.getD (9 * i.val + j.val) 0 - 48)) ∧
    (48 ∈ s → M.tryFromStr s = .panic) := by
  refine ⟨?bpart, fun h48 => ?mpart⟩
  case mpart =>
    unfold M.tryFromStr
    rw [if_neg (by omega)]
    have hcond : ¬(s.all (fun byte => (M.parseCell byte).isSome) = true) := by
      intro hall
      have h := List.all_eq_true.mp hall 48 h48
      exact absurd h (by decide)
    rw [if_neg hcond]
  have hcell : ∀ byte, 48 ≤ byte → byte ≤ 57 →
      B.parseCell byte = some (if byte = 48 then Cell.empty
                               else Cell.value (byte - 48)) := by
    intro b h1 h2
    unfold B.parseCell toDigit B.Cell.tryFrom
    rw [if_pos ⟨h1, h2⟩]
    by_cases h0 : b = 48
    · subst h0
      decide
    · have hb : ¬(b - 48 = 0) := by omega
      have hb2 : 1 ≤ b - 48 ∧ b - 48 ≤ 9 := ⟨by omega, by omega⟩
      simp [hb, hb2, h0]
  have hall : s.all (fun byte => (B.parseCell byte).isSome) = true := by
    rw [List.all_eq_true]
    intro b hb
    obtain ⟨h1, h2⟩ := hdig b hb
    rw [hcell b h1 h2]
    rfl
  refine ⟨fun i j => (B.parseCell (s.getD (9 * i.val + j.val) 0)).getD .empty,
    ?_, ?_⟩
  · unfold B.tryFromStr
    rw [if_neg (by omega), if_pos hall]
  · intro i j
    have hidx : 9 * i.val + j.val < s.length := by
      have := i.isLt
      have := j.isLt
      omega
    have hmem : s.getD (9 * i.val + j.val) 0 ∈ s := by
      rw [List.getD_eq_getElem s 0 hidx]
      exact List.getElem_mem hidx
    obtain ⟨h1, h2⟩ := hdig _ hmem
    show (B.parseCell (s.getD (9 * i.val + j.val) 0)).getD Cell.empty = _
    rw [hcell _ h1 h2]
    rfl

/-- C5 witness: the spec's sample puzzle string (which contains both `'0'`
and nonzero digits) parses into the row-major grid it describes through the
`board.rs` conversion, and panics through the `main.rs` conversion. -/
theorem parse_digits_row_major_witness :
    (∃ g, B.tryFromStr puzzleInput = .ok g ∧ ∀ i j : Fin 9,
      g i j = if puzzleInput.getD (9 * i.val + j.val) 0 = 48 then Cell.empty
              else Cell.value (puzzleInput.getD (9 * i.val + j.val) 0 - 48)) ∧
      M.tryFromStr puzzleInput = .panic :=
  ⟨(parse_digits_row_major puzzleInput (by decide) (by decide)).1,
   (parse_digits_row_major puzzleInput (by decide) (by decide)).2 (by decide)⟩

/-! ## C2 — unit completion check -/

/-- The seen-set loop accepts exactly the lists of non-empty cells whose
digits are pairwise distinct and all absent from the starting set. -/
theorem unitSeen_iff (l : List Cell) (seen : List Nat) :
    B.unitSeen l seen = true ↔
      (∀ c ∈ l, c ≠ Cell.empty) ∧ (l.filterMap Cell.val?).Nodup ∧
        ∀ v ∈ l.filterMap Cell.val?, v ∉ seen := by
  induction l generalizing seen with
  | nil => simp [B.unitSeen]
  | cons c rest ih =>
    cases c with
    | empty =>
      have hstep : B.unitSeen (Cell.empty :: rest) seen = false := rfl
      rw [hstep]
      constructor
      · intro h
        cases h
      · rintro ⟨h1, -, -⟩
        exact absurd rfl (h1 Cell.empty (List.mem_cons_self _ _))
    | value n =>
      have hstep : B.unitSeen (Cell.value n :: rest) seen
          = if n ∈ seen then false else B.unitSeen rest (n :: seen) := rfl
      rw [hstep]
      by_cases hn : n ∈ seen
      · rw [if_pos hn]
        constructor
        · intro h
          cases h
        · rintro ⟨-, -, h3⟩
          have hmem : n ∈ List.filterMap Cell.val? (Cell.value n :: rest) :=
            show n ∈ n :: List.filterMap Cell.val? rest from
              List.mem_cons_self _ _
          exact absurd hn (h3 n hmem)
      · rw [if_neg hn, ih (n :: seen)]
        constructor
        · rintro ⟨h1, h2, h3⟩
          refine ⟨?_, ?_, ?_⟩
          · intro c hc
            rcases List.mem_cons.mp hc with rfl | hc
            · intro hce
              cases hce
            · exact h1 c hc
          · show (n :: List.filterMap Cell.val? rest).Nodup
            rw [List.nodup_cons]
            exact ⟨fun hmem => (h3 n hmem) (List.mem_cons_self _ _), h2⟩
          · show ∀ v ∈ n :: List.filterMap Cell.val? rest, v ∉ seen
            intro v hv
            rcases List.mem_cons.mp hv with rfl | hv
            · exact hn
            · exact fun hvs => (h3 v hv) (List.mem_cons.mpr (Or.inr hvs))
        · rintro ⟨h1, h2, h3⟩
          have h2x : (n :: List.filterMap Cell.val? rest).Nodup := h2
          have h3x : ∀ v ∈ n :: List.filterMap Cell.val? rest, v ∉ seen := h3
          rw [List.nodup_cons] at h2x
          refine ⟨fun c hc => h1 c (List.mem_cons.mpr (Or.inr hc)), h2x.2, ?_⟩
          intro v hv hvns
          rcases List.mem_cons.mp hvns with rfl | hvseen
          · exact h2x.1 hv
          · exact (h3x v (List.mem_cons.mpr (Or.inr hv))) hvseen

/-- Under the all-filled hypothesis, distinctness of the digit list is the
same as pairwise distinctness of the cells at distinct indices. -/
theorem nodup_vals_iff_pairwise (f : Fin 9 → Cell)
    (hne : ∀ j, f j ≠ Cell.empty) :
    (((List.finRange 9).map f).filterMap Cell.val?).Nodup ↔
      ∀ j k, j ≠ k → f j ≠ f k := by
  have hval : ∀ j, f j = Cell.value ((f j).val?.getD 0) := by
    intro j
    cases h : f j with
    | empty => exact absurd h (hne j)
    | value v => rfl
  have hcomp : (((List.finRange 9).map f).filterMap Cell.val?)
      = (List.finRange 9).map (fun j => (f j).val?.getD 0) := by
    rw [List.filterMap_map]
    have : (Cell.val? ∘ f) = (some ∘ fun j => (f j).val?.getD 0) := by
      funext j
      show (f j).val? = some ((f j).val?.getD 0)
      rw [hval j]
      rfl
    rw [this, List.filterMap_eq_map]
  rw [hcomp]
  constructor
  · intro hnd j k hjk heq
    apply hjk
    exact List.inj_on_of_nodup_map hnd (List.mem_finRange j)
      (List.mem_finRange k) (by rw [heq])
  · intro h
    apply List.Nodup.map_on
    · intro j _ k _ heq
      by_contra hjk
      apply h j k hjk
      rw [hval j, hval k, heq]
    · exact List.nodup_finRange 9

/-- C2: for every grid and every row index `i` (and column index `j`) in
`[0, 9)`, the completion check of `board.rs` returns `true` exactly when
the 9 cells of that row (column) are all non-empty and pairwise distinct. -/
theorem is_unit_completed_iff (g : Board) (i : Fin 9) :
    (B.is_row_completed g (B.rowOfFin i) = true ↔
      (∀ j, g i j ≠ Cell.empty) ∧ ∀ j k, j ≠ k → g i j ≠ g i k) ∧
    (B.is_column_completed g (B.colOfFin i) = true ↔
      (∀ j, g j i ≠ Cell.empty) ∧ ∀ j k, j ≠ k → g j i ≠ g k i) := by
  constructor
  · unfold B.is_row_completed B.get_row
    rw [rowFin_rowOfFin, unitSeen_iff]
    constructor
    · rintro ⟨h1, h2, -⟩
      refine ⟨fun j => h1 _ (List.mem_map_of_mem _ (List.mem_finRange j)), ?_⟩
      exact (nodup_vals_iff_pairwise (fun j => g i j)
        (fun j => h1 _ (List.mem_map_of_mem _ (List.mem_finRange j)))).mp h2
    · rintro ⟨h1, h2⟩
      refine ⟨?_, ?_, by simp⟩
      · intro c hc
        obtain ⟨j, -, rfl⟩ := List.mem_map.mp hc
        exact h1 j
      · exact (nodup_vals_iff_pairwise (fun j => g i j) h1).mpr h2
  · unfold B.is_column_completed B.get_column
    rw [colFin_colOfFin, unitSeen_iff]
    constructor
    · rintro ⟨h1, h2, -⟩
      refine ⟨fun j => h1 _ (List.mem_map_of_mem _ (List.mem_finRange j)), ?_⟩
      exact (nodup_vals_iff_pairwise (fun j => g j i)
        (fun j => h1 _ (List.mem_map_of_mem _ (List.mem_finRange j)))).mp h2
    · rintro ⟨h1, h2⟩
      refine ⟨?_, ?_, by simp⟩
      · intro c hc
        obtain ⟨j, -, rfl⟩ := List.mem_map.mp hc
        exact h1 j
      · exact (nodup_vals_iff_pairwise (fun j => g j i) h1).mpr h2

/-! ## C1 — the serialize/parse round trip -/

/-- A cell produced by the `board.rs` parsing pipeline is empty or holds a
digit 1–9. -/
theorem parseCell_shape (b : Nat) (c : Cell) (h : B.parseCell b = some c) :
    c = Cell.empty ∨ ∃ d, 1 ≤ d ∧ d ≤ 9 ∧ c = Cell.value d := by
  unfold B.parseCell at h
  cases htd : toDigit b with
  | none =>
    rw [htd] at h
    cases h
  | some d =>
    rw [htd] at h
    have h2 : (match B.Cell.tryFrom d with
      | .ok c0 => some c0
      | .error _ => none) = some c := h
    have hd : d ≤ 9 := by
      unfold toDigit at htd
      by_cases hb : 48 ≤ b ∧ b ≤ 57
      · rw [if_pos hb] at htd
        injection htd with e
        omega
      · rw [if_neg hb] at htd
        cases htd
    unfold B.Cell.tryFrom at h2
    by_cases h0 : d = 0
    · rw [if_pos h0] at h2
      have h3 : some Cell.empty = some c := h2
      injection h3 with h3
      exact Or.inl h3.symm
    · rw [if_neg h0, if_pos ⟨by omega, hd⟩] at h2
      have h3 : some (Cell.value d) = some c := h2
      injection h3 with h3
      exact Or.inr ⟨d, by omega, hd, h3.symm⟩

/-- The display form of an empty cell or of a digit 1–9 is one byte long. -/
theorem renderCell_length_one (c : Cell)
    (h : c = Cell.empty ∨ ∃ d, 1 ≤ d ∧ d ≤ 9 ∧ c = Cell.value d) :
    (B.renderCell c).length = 1 := by
  rcases h with rfl | ⟨d, h1, h2, rfl⟩
  · rfl
  · show (B.natDecimal d).length = 1
    interval_cases d <;> decide

/-- A board whose cells all render to one byte serializes to 90 bytes:
9 rows of 9 cell bytes plus a newline each. -/
theorem displayStr_length (g : Board)
    (h : ∀ i j, (B.renderCell (g i j)).length = 1) :
    (B.displayStr g).length = 90 := by
  unfold B.displayStr
  rw [List.length_flatten, List.map_map]
  have hrow : ∀ i : Fin 9,
      ((((List.finRange 9).map (fun j => B.renderCell (g i j))).flatten
        ++ [10]).length) = 10 := by
    intro i
    rw [List.length_append, List.length_flatten, List.map_map]
    have : (List.finRange 9).map
        (List.length ∘ fun j => B.renderCell (g i j)) = List.replicate 9 1 := by
      rw [List.eq_replicate_iff]
      refine ⟨by rw [List.length_map, List.length_finRange], ?_⟩
      intro b hb
      obtain ⟨j, -, rfl⟩ := List.mem_map.mp hb
      exact h i j
    rw [this, List.sum_replicate]
    rfl
  have : (List.finRange 9).map
      (List.length ∘ fun i =>
        ((List.finRange 9).map (fun j => B.renderCell (g i j))).flatten ++ [10])
      = List.replicate 9 10 := by
    rw [List.eq_replicate_iff]
    refine ⟨by rw [List.length_map, List.length_finRange], ?_⟩
    intro b hb
    obtain ⟨i, -, rfl⟩ := List.mem_map.mp hb
    exact hrow i
  rw [this, List.sum_replicate]
  rfl

/-- C1 (amended): serializing any grid obtained from parsing produces a
90-byte text (9 rows of 9 cell characters, each followed by a newline), and
parsing that serialization always fails with `InputLength` citing 90 — the
round trip never reproduces the grid. -/
theorem reparse_serialized_fails (s : Str) (g : Board)
    (h : B.tryFromStr s = .ok g) :
    (B.displayStr g).length = 90 ∧
      B.tryFromStr (B.displayStr g) = .error (.inputLength 90) := by
  have hshape : ∀ i j : Fin 9,
      g i j = Cell.empty ∨ ∃ d, 1 ≤ d ∧ d ≤ 9 ∧ g i j = Cell.value d := by
    unfold B.tryFromStr at h
    by_cases hlen : s.length ≠ 81
    · rw [if_pos hlen] at h
      cases h
    · rw [if_neg hlen] at h
      by_cases hall : s.all (fun byte => (B.parseCell byte).isSome) = true
      · rw [if_pos hall] at h
        injection h with h
        subst h
        intro i j
        have hidx : 9 * i.val + j.val < s.length := by
          have := i.isLt
          have := j.isLt
          omega
        have hmem : s.getD (9 * i.val + j.val) 0 ∈ s := by
          rw [List.getD_eq_getElem s 0 hidx]
          exact List.getElem_mem hidx
        have hsome := List.all_eq_true.mp hall _ hmem
        obtain ⟨c, hc⟩ := Option.isSome_iff_exists.mp hsome
        have hcell : (fun i j : Fin 9 =>
            (B.parseCell (s.getD (9 * i.val + j.val) 0)).getD Cell.empty) i j
            = c := by
          show (B.parseCell (s.getD (9 * i.val + j.val) 0)).getD Cell.empty = c
          rw [hc]
          rfl
        rw [hcell]
        exact parseCell_shape _ c hc
      · rw [if_neg hall] at h
        cases h
  have hlen90 : (B.displayStr g).length = 90 :=
    displayStr_length g (fun i j => renderCell_length_one _ (hshape i j))
  refine ⟨hlen90, ?_⟩
  unfold B.tryFromStr
  rw [if_pos (by omega), hlen90]

/-- C1 counterexample: the repository's own fully solved test vector parses,
but parsing its serialization does not give back the grid (it gives an
`InputLength` error), refuting the round-trip claim at a concrete input. -/
theorem roundtrip_claim_counterexample :
    B.tryFromStr solvedInput = .ok solvedBoard ∧
      B.tryFromStr (B.displayStr solvedBoard) ≠ .ok solvedBoard := by decide

/-- C1 witness: at the solved test vector, the serialization is 90 bytes
long and re-parsing it fails with `InputLength 90`. -/
theorem reparse_serialized_fails_witness :
    (B.displayStr solvedBoard).length = 90 ∧
      B.tryFromStr (B.displayStr solvedBoard) = .error (.inputLength 90) :=
  reparse_serialized_fails solvedInput solvedBoard (by decide)

/-! ## C7 — the box accessor -/

/-- The explicit 3×3 enumeration of a coordinate's box lists exactly the
coordinates sharing its box index, in row-major order. -/
theorem boxCoordsOf_eq_filter : ∀ i j : Fin 9,
    B.boxCoordsOf i j
      = Solver.allCoords.filter
          (fun p => Solver.boxIdx p = Solver.boxIdx (i, j)) := by decide

/-- C7: for every coordinate, `get_square_of` returns, without failing, the
9 cells of the coordinates whose box index `(r/3)*3 + c/3` equals the box
index of the given coordinate, in a fixed row-major order. -/
theorem get_square_of_is_box (g : Board) (i j : Fin 9) :
    B.get_square_of g (B.rowOfFin i, B.colOfFin j)
        = (Solver.allCoords.filter
            (fun p => Solver.boxIdx p = Solver.boxIdx (i, j))).map
            (fun p => g p.1 p.2) ∧
      (B.get_square_of g (B.rowOfFin i, B.colOfFin j)).length = 9 := by
  have hsq : B.get_square_of g (B.rowOfFin i, B.colOfFin j)
      = (B.boxCoordsOf i j).map (fun p => g p.1 p.2) := by
    unfold B.get_square_of
    rw [show B.rowFin (B.rowOfFin i, B.colOfFin j).1 = i from rowFin_rowOfFin i,
        show B.colFin (B.rowOfFin i, B.colOfFin j).2 = j from colFin_colOfFin j]
  have hlen : ∀ a b : Fin 9, (B.boxCoordsOf a b).length = 9 := by decide
  rw [hsq, boxCoordsOf_eq_filter]
  refine ⟨rfl, ?_⟩
  rw [List.length_map, ← boxCoordsOf_eq_filter, hlen]

/-! ## C8 — solver soundness -/

/-- Every coordinate occurs in the row-major coordinate list. -/
theorem mem_allCoords : ∀ p : Fin 9 × Fin 9, p ∈ Solver.allCoords := by decide

/-- The 27 units are duplicate-free coordinate lists. -/
theorem allUnits_coords_nodup : ∀ u ∈ Solver.allUnits, u.Nodup := by decide

/-- The units a coordinate belongs to are exactly its row, its column and
its box. -/
theorem mem_unit_cases : ∀ (i j : Fin 9), ∀ u ∈ Solver.allUnits,
    (i, j) ∈ u →
      u = Solver.unitRow i ∨ u = Solver.unitCol j ∨
        u = Solver.unitBox (Solver.boxIdx (i, j)) := by decide

/-- Each row unit is among the 27 units. -/
theorem unitRow_mem_allUnits : ∀ i : Fin 9,
    Solver.unitRow i ∈ Solver.allUnits := by decide

/-- Each column unit is among the 27 units. -/
theorem unitCol_mem_allUnits : ∀ j : Fin 9,
    Solver.unitCol j ∈ Solver.allUnits := by decide

/-- Each box unit is among the 27 units. -/
theorem unitBox_mem_allUnits : ∀ k : Fin 9,
    Solver.unitBox k.val ∈ Solver.allUnits := by decide

/-- The initialization check decides the validity invariant. -/
theorem validInit_iff (g : Board) :
    Solver.validInit g = true ↔ Solver.ValidG g := by
  unfold Solver.validInit Solver.ValidG
  rw [List.all_eq_true]
  constructor
  · intro h u hu
    exact of_decide_eq_true (h u hu)
  · intro h u hu
    exact decide_eq_true (h u hu)

/-- When cell selection finds nothing, no cell is empty. -/
theorem selectCell_none (g : Board) (h : Solver.selectCell g = none) :
    ∀ i j : Fin 9, g i j ≠ Cell.empty := by
  intro i j hempty
  unfold Solver.selectCell at h
  rw [List.argmin_eq_none] at h
  have hmem : (i, j) ∈ Solver.empties g := by
    unfold Solver.empties
    rw [List.mem_filter]
    exact ⟨mem_allCoords _, decide_eq_true hempty⟩
  rw [h] at hmem
  cases hmem

/-- The selected cell is empty. -/
theorem selectCell_some (g : Board) (p : Fin 9 × Fin 9)
    (h : Solver.selectCell g = some p) : g p.1 p.2 = Cell.empty := by
  unfold Solver.selectCell at h
  have hmem : p ∈ Solver.empties g :=
    List.argmin_mem (Option.mem_def.mpr h)
  unfold Solver.empties at hmem
  rw [List.mem_filter] at hmem
  exact of_decide_eq_true hmem.2

/-- Filling an empty cell strictly decreases the number of empty cells. -/
theorem emptyCount_update_lt (g : Board) (i j : Fin 9) (d : Nat)
    (h : g i j = Cell.empty) :
    Solver.emptyCount (update g i j (Cell.value d)) < Solver.emptyCount g := by
  unfold Solver.emptyCount Solver.empties
  have hfil : Solver.allCoords.filter
        (fun p => decide (update g i j (Cell.value d) p.1 p.2 = Cell.empty))
      = (Solver.allCoords.filter
          (fun p => decide (g p.1 p.2 = Cell.empty))).filter
          (fun p => decide (p ≠ (i, j))) := by
    rw [List.filter_filter]
    apply List.filter_congr
    intro p hp
    by_cases hpij : p = (i, j)
    · subst hpij
      have hupd : update g i j (Cell.value d) i j = Cell.value d :=
        update_self g i j _
      simp [hupd]
    · have : update g i j (Cell.value d) p.1 p.2 = g p.1 p.2 := by
        apply update_ne
        intro hpair
        exact hpij hpair
      rw [this]
      simp [hpij]
  rw [hfil]
  apply List.length_filter_lt_length_iff_exists.mpr
  refine ⟨(i, j), ?_, by simp⟩
  rw [List.mem_filter]
  exact ⟨mem_allCoords _, by simp [h]⟩

/-- What membership in the candidate list means: a digit 1–9 absent from the
cell's row, column and box. -/
theorem candidates_spec (g : Board) (p : Fin 9 × Fin 9) (d : Nat)
    (h : d ∈ Solver.candidates g p) :
    (1 ≤ d ∧ d ≤ 9) ∧ d ∉ Solver.unitVals g (Solver.unitRow p.1) ∧
      d ∉ Solver.unitVals g (Solver.unitCol p.2) ∧
      d ∉ Solver.unitVals g (Solver.unitBox (Solver.boxIdx p)) := by
  unfold Solver.candidates at h
  rw [List.mem_filter] at h
  obtain ⟨hrange, hpred⟩ := h
  obtain ⟨x, hx, rfl⟩ := List.mem_map.mp hrange
  rw [List.mem_range] at hx
  simp only [Bool.and_eq_true, decide_eq_true_eq] at hpred
  exact ⟨⟨by omega, by omega⟩, hpred.1.1, hpred.1.2, hpred.2⟩

/-- The digits of a unit not containing the written coordinate are
unchanged by the write. -/
theorem unitVals_update_not_mem (g : Board) (u : List (Fin 9 × Fin 9))
    (i j : Fin 9) (c : Cell) (h : (i, j) ∉ u) :
    Solver.unitVals (update g i j c) u = Solver.unitVals g u := by
  unfold Solver.unitVals
  induction u with
  | nil => rfl
  | cons q rest ih =>
    have hq : q ≠ (i, j) := fun heq => h (heq ▸ List.mem_cons_self _ _)
    have hrest : (i, j) ∉ rest := fun hmem => h (List.mem_cons.mpr (Or.inr hmem))
    rw [List.filterMap_cons, List.filterMap_cons]
    have hcell : update g i j c q.1 q.2 = g q.1 q.2 := by
      apply update_ne
      intro hpair
      exact hq (by rw [← hpair])
    rw [hcell, ih hrest]

/-- Writing digit `d` into an empty cell of a unit inserts `d` into the
unit's digit list, up to permutation. -/
theorem unitVals_update_perm (g : Board) (u : List (Fin 9 × Fin 9))
    (i j : Fin 9) (d : Nat) (hu : u.Nodup) (hmem : (i, j) ∈ u)
    (hempty : g i j = Cell.empty) :
    (Solver.unitVals (update g i j (Cell.value d)) u).Perm
      (d :: Solver.unitVals g u) := by
  induction u with
  | nil => cases hmem
  | cons q rest ih =>
    rw [List.nodup_cons] at hu
    by_cases hq : q = (i, j)
    · subst hq
      have hrest : (i, j) ∉ rest := hu.1
      have hL : Solver.unitVals (update g i j (Cell.value d)) ((i, j) :: rest)
          = d :: Solver.unitVals g rest := by
        unfold Solver.unitVals
        rw [List.filterMap_cons]
        have hself : update g i j (Cell.value d) i j = Cell.value d :=
          update_self g i j _
        have hcast : update g i j (Cell.value d) (i, j).1 (i, j).2
            = Cell.value d := hself
        rw [hcast]
        have hns := unitVals_update_not_mem g rest i j (Cell.value d) hrest
        unfold Solver.unitVals at hns
        show d :: List.filterMap _ rest = _
        rw [hns]
      have hR : Solver.unitVals g ((i, j) :: rest) = Solver.unitVals g rest := by
        unfold Solver.unitVals
        rw [List.filterMap_cons]
        have hcast : g (i, j).1 (i, j).2 = Cell.empty := hempty
        rw [hcast]
        rfl
      rw [hL, hR]
    · have hmem2 : (i, j) ∈ rest := by
        rcases List.mem_cons.mp hmem with heq | hmem2
        · exact absurd heq.symm hq
        · exact hmem2
      have ihp := ih hu.2 hmem2
      have hcell : update g i j (Cell.value d) q.1 q.2 = g q.1 q.2 := by
        apply update_ne
        intro hpair
        exact hq (by rw [← hpair])
      unfold Solver.unitVals
      unfold Solver.unitVals at ihp
      rw [List.filterMap_cons, List.filterMap_cons, hcell]
      cases hval : (g q.1 q.2).val? with
      | none => exact ihp
      | some v =>
        exact (ihp.cons v).trans (List.Perm.swap d v _)

/-- Assigning a candidate digit to an empty cell preserves the validity
invariant. -/
theorem validG_update (g : Board) (i j : Fin 9) (d : Nat)
    (hempty : g i j = Cell.empty) (hd : d ∈ Solver.candidates g (i, j))
    (hv : Solver.ValidG g) : Solver.ValidG (update g i j (Cell.value d)) := by
  obtain ⟨-, hrow, hcol, hbox⟩ := candidates_spec g (i, j) d hd
  intro u hu
  by_cases hmem : (i, j) ∈ u
  · have hperm := unitVals_update_perm g u i j d
      (allUnits_coords_nodup u hu) hmem hempty
    rw [hperm.nodup_iff, List.nodup_cons]
    rcases mem_unit_cases i j u hu hmem with rfl | rfl | rfl
    · exact ⟨hrow, hv _ hu⟩
    · exact ⟨hcol, hv _ hu⟩
    · exact ⟨hbox, hv _ hu⟩
  · rw [unitVals_update_not_mem g u i j _ hmem]
    exact hv u hu

/-- A unit with duplicate-free digits on a fully filled grid passes the
seen-set completion check. -/
theorem unitSeen_of_valid_unit (g : Board) (u : List (Fin 9 × Fin 9))
    (hnd : (Solver.unitVals g u).Nodup) (hfull : ∀ i j, g i j ≠ Cell.empty) :
    B.unitSeen (u.map (fun p => g p.1 p.2)) [] = true := by
  rw [unitSeen_iff]
  refine ⟨?_, ?_, by simp⟩
  · intro c hc
    obtain ⟨p, -, rfl⟩ := List.mem_map.mp hc
    exact hfull p.1 p.2
  · rw [List.filterMap_map]
    exact hnd

/-- A valid, fully filled grid passes all 27 completion checks. -/
theorem completed_of_valid_full (g : Board) (hv : Solver.ValidG g)
    (hfull : ∀ i j, g i j ≠ Cell.empty) :
    Solver.allUnitsCompleted g = true := by
  unfold Solver.allUnitsCompleted
  rw [Bool.and_eq_true, Bool.and_eq_true]
  refine ⟨⟨?_, ?_⟩, ?_⟩
  · unfold B.all_rows_completed
    rw [List.all_eq_true]
    intro i _
    show B.is_row_completed g (B.rowOfFin i) = true
    unfold B.is_row_completed B.get_row
    rw [rowFin_rowOfFin]
    have h := unitSeen_of_valid_unit g (Solver.unitRow i)
      (hv _ (unitRow_mem_allUnits i)) hfull
    unfold Solver.unitRow at h
    rw [List.map_map] at h
    exact h
  · unfold B.all_columns_completed
    rw [List.all_eq_true]
    intro j _
    show B.is_column_completed g (B.colOfFin j) = true
    unfold B.is_column_completed B.get_column
    rw [colFin_colOfFin]
    have h := unitSeen_of_valid_unit g (Solver.unitCol j)
      (hv _ (unitCol_mem_allUnits j)) hfull
    unfold Solver.unitCol at h
    rw [List.map_map] at h
    exact h
  · rw [List.all_eq_true]
    intro k _
    show Solver.boxCompleted g k = true
    unfold Solver.boxCompleted
    exact unitSeen_of_valid_unit g (Solver.unitBox k.val)
      (hv _ (unitBox_mem_allUnits k)) hfull

/-- The search preserves validity and only answers with fully filled grids. -/
theorem solveFuel_sound : ∀ (fuel : Nat) (g r : Board), Solver.ValidG g →
    Solver.solveFuel fuel g = some r →
      Solver.ValidG r ∧ ∀ i j, r i j ≠ Cell.empty := by
  intro fuel
  induction fuel with
  | zero =>
    intro g r hv h
    exact Option.noConfusion h
  | succ n ih =>
    intro g r hv h
    have hstep : Solver.solveFuel (n + 1) g
        = match Solver.selectCell g with
          | none => some g
          | some p => (Solver.candidates g p).findSome?
              (fun d => Solver.solveFuel n (update g p.1 p.2 (Cell.value d))) :=
      rfl
    rw [hstep] at h
    cases hsel : Solver.selectCell g with
    | none =>
      rw [hsel] at h
      have hgr : g = r := by injection h
      subst hgr
      exact ⟨hv, selectCell_none g hsel⟩
    | some p =>
      rw [hsel] at h
      obtain ⟨d, hd, hrec⟩ := List.exists_of_findSome?_eq_some h
      have hempty := selectCell_some g p hsel
      exact ih (update g p.1 p.2 (Cell.value d)) r
        (validG_update g p.1 p.2 d hempty hd hv) hrec

/-- C8: the solver, modelled from the spec over the repository's board, is a
total function (its recursion is bounded by the number of empty cells, so it
terminates on every 9×9 grid), and whenever it reports a solved grid, all 27
units — the 9 rows and 9 columns checked by `board.rs`'s completion
functions, and the 9 boxes — are complete. -/
theorem solve_sound (g r : Board) (h : Solver.solve g = some r) :
    Solver.allUnitsCompleted r = true := by
  unfold Solver.solve at h
  by_cases hvi : Solver.validInit g = true
  · rw [if_pos hvi] at h
    obtain ⟨hv2, hfull⟩ := solveFuel_sound (Solver.emptyCount g + 1) g r
      ((validInit_iff g).mp hvi) h
    exact completed_of_valid_full r hv2 hfull
  · rw [if_neg hvi] at h
    cases h

/-- C8 witness: on the already-complete test grid the solver reports it
solved, and all 27 units of the result are complete. -/
theorem solve_sound_witness : Solver.allUnitsCompleted solvedBoard = true :=
  solve_sound solvedBoard solvedBoard (by decide)

end Sudoku
